import Mathlib

/-!
# Account chaincode (Hyperledger1/chaincode/chaincode.go)

A shallow embedding of the `AccountContract` chaincode and of the parts of
its collaborators that it can observe:

* Go strings are walked the way `utf8.DecodeRuneInString` walks them, as a
  sequence of decoded runes and of bytes that start no valid encoding;
* a `float64` is a finite value, an infinity or NaN (the contract does no
  arithmetic on them);
* a stored byte string is seen the way `encoding/json` reads it: either
  text that is not valid JSON, or the JSON value it denotes;
* the ledger stub is a keyed store with a per-key history and with
  injectable failures of its calls;
* `fmt.Sscanf(s, "%f", &x)` is a parameter `scan` of the operations that
  call it: `some v` when it stores `v` in `x`, `none` when it stores nothing.
-/

namespace Chaincode

/-! ## Go values -/

/-- One step of a walk over a Go string: a decoded rune, or a byte that
starts no valid UTF-8 encoding. -/
inductive Piece where
  | rune (c : Char)
  | bad (b : Nat)
  deriving DecidableEq, Repr

/-- Go `string`. -/
abbrev GoString := List Piece

/-- Go string holding the given text. -/
def lit (s : String) : GoString := s.toList.map Piece.rune

/-- Value of Go type `float64`; a finite value is named by the rational it
denotes. -/
inductive Float64 where
  | finite (q : ℚ)
  | inf (neg : Bool)
  | nan
  deriving DecidableEq

/-- Go struct `Account`. -/
structure Account where
  DealerID : GoString
  MSISDN : GoString
  MPIN : GoString
  Balance : Float64
  Status : GoString
  TransAmount : Float64
  TransType : GoString
  Remarks : GoString
  deriving DecidableEq

/-- The zero value of `Account` (`var account Account`). -/
def Account.zero : Account :=
  { DealerID := [], MSISDN := [], MPIN := [], Balance := .finite 0, Status := [],
    TransAmount := .finite 0, TransType := [], Remarks := [] }

/-- Go `error` values the contract can return. -/
inductive Error where
  /-- Go `fmt.Errorf("account %s already exists", dealerId)` -/
  | alreadyExists (dealerId : GoString)
  /-- Go `fmt.Errorf("account %s does not exist", dealerId)` -/
  | doesNotExist (dealerId : GoString)
  /-- Go `fmt.Errorf("failed to read from world state: %v", err)` -/
  | readFailed (cause : Error)
  /-- An error of the ledger stub. -/
  | stub (msg : String)
  /-- Go `json.UnsupportedValueError`. -/
  | unsupportedValue
  /-- Go `json.SyntaxError`. -/
  | syntaxError
  /-- Go `json.UnmarshalTypeError` for the named JSON member (empty at top level). -/
  | unmarshalType (field : String)
  deriving DecidableEq

/-! ## encoding/json -/

/-- How `strconv.ParseFloat(lit, 64)` reads a JSON number literal. -/
inductive NumLit where
  | value (q : ℚ)
  | outOfRange
  deriving DecidableEq

/-- A JSON value. -/
inductive Json where
  | null
  | bool (b : Bool)
  | number (n : NumLit)
  | string (s : List Char)
  | array (xs : List Json)
  | object (members : List (String × Json))

/-- A byte string as `encoding/json` reads it. -/
inductive Bytes where
  | invalid (raw : List Nat)
  | json (doc : Json)

/-- The string a JSON encoder writes for a Go string: each invalid byte
becomes U+FFFD. -/
def toValidUTF8 : GoString → List Char
  | [] => []
  | .rune c :: rest => c :: toValidUTF8 rest
  | .bad _ :: rest => Char.ofNat 0xFFFD :: toValidUTF8 rest

/-- Go string holding a decoded JSON string. -/
def ofChars (cs : List Char) : GoString := cs.map Piece.rune

/-- Go `json.Marshal(account)`: a NaN or infinite number is an
`UnsupportedValueError`; otherwise the members are written in field order
under the names of the `json` tags. -/
def jsonMarshal (a : Account) : Except Error Bytes :=
  match a.Balance, a.TransAmount with
  | .finite balance, .finite transAmount =>
    .ok (.json (.object [
      ("dealerId", .string (toValidUTF8 a.DealerID)),
      ("msisdn", .string (toValidUTF8 a.MSISDN)),
      ("mpin", .string (toValidUTF8 a.MPIN)),
      ("balance", .number (.value balance)),
      ("status", .string (toValidUTF8 a.Status)),
      ("transAmount", .number (.value transAmount)),
      ("transType", .string (toValidUTF8 a.TransType)),
      ("remarks", .string (toValidUTF8 a.Remarks))]))
  | _, _ => .error .unsupportedValue

/-- The fields of `Account`. -/
inductive Field where
  | dealerId | msisdn | mpin | balance | status | transAmount | transType | remarks
  deriving DecidableEq

/-- All fields, in declaration order. -/
def Field.all : List Field :=
  [.dealerId, .msisdn, .mpin, .balance, .status, .transAmount, .transType, .remarks]

/-- The `json` tag of a field. -/
def Field.tag : Field → String
  | .dealerId => "dealerId"
  | .msisdn => "msisdn"
  | .mpin => "mpin"
  | .balance => "balance"
  | .status => "status"
  | .transAmount => "transAmount"
  | .transType => "transType"
  | .remarks => "remarks"

/-- Case folding of one rune, as far as it can reach an ASCII letter:
ASCII lower case, U+017F (long s) and U+212A (Kelvin sign) fold to the upper
case ASCII letter. -/
def foldRune (c : Char) : Char :=
  if 97 ≤ c.toNat ∧ c.toNat ≤ 122 then Char.ofNat (c.toNat - 32)
  else if c.toNat = 0x17F then 'S'
  else if c.toNat = 0x212A then 'K'
  else c

/-- Folded form of a member name. -/
def foldName (s : String) : List Char := s.toList.map foldRune

/-- The field a JSON member name selects: the one whose tag it equals, or
else the one whose tag it equals up to case folding. -/
def fieldOf (key : String) : Option Field :=
  match Field.all.find? (fun f => f.tag == key) with
  | some f => some f
  | none => Field.all.find? (fun f => foldName f.tag == foldName key)

/-- Decoding one JSON value into a field of type `string`. -/
def storeString (v : Json) (name : String) (old : GoString) : GoString × Option Error :=
  match v with
  | .string s => (ofChars s, none)
  | .null => (old, none)
  | _ => (old, some (.unmarshalType name))

/-- Decoding one JSON value into a field of type `float64`. -/
def storeFloat (v : Json) (name : String) (old : Float64) : Float64 × Option Error :=
  match v with
  | .number (.value q) => (.finite q, none)
  | .null => (old, none)
  | _ => (old, some (.unmarshalType name))

/-- Decoding one JSON value into the given field of the account. -/
def storeField (f : Field) (v : Json) (a : Account) : Account × Option Error :=
  match f with
  | .dealerId => let r := storeString v f.tag a.DealerID; ({ a with DealerID := r.1 }, r.2)
  | .msisdn => let r := storeString v f.tag a.MSISDN; ({ a with MSISDN := r.1 }, r.2)
  | .mpin => let r := storeString v f.tag a.MPIN; ({ a with MPIN := r.1 }, r.2)
  | .balance => let r := storeFloat v f.tag a.Balance; ({ a with Balance := r.1 }, r.2)
  | .status => let r := storeString v f.tag a.Status; ({ a with Status := r.1 }, r.2)
  | .transAmount =>
    let r := storeFloat v f.tag a.TransAmount; ({ a with TransAmount := r.1 }, r.2)
  | .transType => let r := storeString v f.tag a.TransType; ({ a with TransType := r.1 }, r.2)
  | .remarks => let r := storeString v f.tag a.Remarks; ({ a with Remarks := r.1 }, r.2)

/-- Decoding the members of a JSON object into the account, in order: a
member that names no field is skipped, a member of the wrong type leaves its
field alone, and the first error is the one kept. -/
def decodeMembers : List (String × Json) → Account → Option Error → Account × Option Error
  | [], a, e => (a, e)
  | (k, v) :: rest, a, e =>
    match fieldOf k with
    | none => decodeMembers rest a e
    | some f =>
      let r := storeField f v a
      decodeMembers rest r.1 (e.orElse fun _ => r.2)

/-- Go `json.Unmarshal(data, &account)`: the account as the call leaves it and
the error returned. Text that is not valid JSON is rejected before anything is
stored; `null` stores nothing; a value that is not an object is a type
error. -/
def jsonUnmarshal (data : Bytes) (a : Account) : Account × Option Error :=
  match data with
  | .invalid _ => (a, some .syntaxError)
  | .json .null => (a, none)
  | .json (.object ms) => decodeMembers ms a none
  | .json _ => (a, some (.unmarshalType ""))

/-! ## The ledger stub -/

/-- One entry of the platform's history of a key
(`queryresult.KeyModification`). -/
structure KeyModification where
  TxId : String
  Timestamp : Nat
  IsDelete : Bool
  Value : Bytes

/-- The ledger as one transaction sees it through `ctx.GetStub()`: the world
state, the history of every key, the identity of the running transaction, and
which calls of the stub fail. -/
structure Stub where
  world : GoString → Option Bytes
  history : GoString → List KeyModification
  txId : String
  timestamp : Nat
  getStateErr : GoString → Option Error
  putStateErr : GoString → Option Error
  historyErr : GoString → Option Error
  nextErr : GoString → Nat → Option Error
  closeErr : GoString → Option Error

/-- Stub call `GetState(key)`: `none` is Go `nil`, the key holds nothing. -/
def Stub.GetState (s : Stub) (key : GoString) : Except Error (Option Bytes) :=
  match s.getStateErr key with
  | some e => .error e
  | none => .ok (s.world key)

/-- Stub call `PutState(key, value)`: the error returned and the ledger
afterwards. A write that succeeds sets the key and adds one entry at the end
of its history, which the platform keeps in commit order; an empty value is
recorded as a delete. -/
def Stub.PutState (s : Stub) (key : GoString) (value : Bytes) : Option Error × Stub :=
  match s.putStateErr key with
  | some e => (some e, s)
  | none =>
    let del : Bool := match value with
      | .invalid [] => true
      | _ => false
    (none,
      { s with
        world := fun k => if k = key then (if del then none else some value) else s.world k
        history := fun k =>
          if k = key then
            s.history k ++ [{ TxId := s.txId, Timestamp := s.timestamp, IsDelete := del,
                              Value := value }]
          else s.history k })

/-! ## The contract -/

/-- The entry `GetAccountHistory` builds for one history item. -/
structure HistoryEntry where
  TxId : String
  Timestamp : Nat
  IsDelete : Bool
  Value : Account
  deriving DecidableEq

/-- The sample accounts of `InitLedger`. -/
def sampleAccounts : List Account :=
  [{ DealerID := lit "A001", MSISDN := lit "9998887701", MPIN := lit "1111",
     Balance := .finite 1000, Status := lit "active", TransAmount := .finite 500,
     TransType := lit "credit", Remarks := lit "init" },
   { DealerID := lit "A002", MSISDN := lit "9998887702", MPIN := lit "2222",
     Balance := .finite 2000, Status := lit "active", TransAmount := .finite 1000,
     TransType := lit "credit", Remarks := lit "init" }]

/-- The bytes of `b, _ := json.Marshal(a)`: empty when the encoding fails. -/
def marshalOrNil (a : Account) : Bytes :=
  match jsonMarshal a with
  | .ok b => b
  | .error _ => .invalid []

/-- Contract operation `InitLedger`: both errors of the loop body are
discarded and the result is always `nil`. -/
def InitLedger (s : Stub) : Option Error × Stub :=
  let s1 := sampleAccounts.foldl
    (fun st a =>
      let b := marshalOrNil a
      (st.PutState a.DealerID b).2)
    s
  (none, s1)

/-- Contract operation `AccountExists`. -/
def AccountExists (s : Stub) (dealerId : GoString) : Except Error Bool :=
  match s.GetState dealerId with
  | .error err => .error err
  | .ok data => .ok data.isSome

/-- Contract operation `CreateAccount`. -/
def CreateAccount (scan : GoString → Option Float64) (s : Stub)
    (dealerId msisdn mpin balanceStr status transAmountStr transType remarks : GoString) :
    Option Error × Stub :=
  match AccountExists s dealerId with
  | .error err => (some err, s)
  | .ok true => (some (.alreadyExists dealerId), s)
  | .ok false =>
    let balance : Float64 := (scan balanceStr).getD (.finite 0)
    let transAmount : Float64 := (scan transAmountStr).getD (.finite 0)
    let account : Account :=
      { DealerID := dealerId, MSISDN := msisdn, MPIN := mpin, Balance := balance,
        Status := status, TransAmount := transAmount, TransType := transType,
        Remarks := remarks }
    match jsonMarshal account with
    | .error err => (some err, s)
    | .ok bytes => s.PutState dealerId bytes

/-- Contract operation `QueryAccount`. -/
def QueryAccount (s : Stub) (dealerId : GoString) : Except Error Account :=
  match s.GetState dealerId with
  | .error err => .error (.readFailed err)
  | .ok none => .error (.doesNotExist dealerId)
  | .ok (some data) =>
    match jsonUnmarshal data Account.zero with
    | (_, some err) => .error err
    | (account, none) => .ok account

/-- Contract operation `UpdateAccountBalance`. -/
def UpdateAccountBalance (scan : GoString → Option Float64) (s : Stub)
    (dealerId balanceStr : GoString) : Option Error × Stub :=
  match s.GetState dealerId with
  | .error err => (some err, s)
  | .ok none => (some (.doesNotExist dealerId), s)
  | .ok (some data) =>
    match jsonUnmarshal data Account.zero with
    | (_, some err) => (some err, s)
    | (account, none) =>
      let balance : Float64 := (scan balanceStr).getD (.finite 0)
      let account := { account with Balance := balance }
      match jsonMarshal account with
      | .error err => (some err, s)
      | .ok bytes => s.PutState dealerId bytes

/-- The entry the loop of `GetAccountHistory` builds for one history item:
the error of the decoding is discarded and the account is taken as the
decoding left it. -/
def historyEntry (resp : KeyModification) : HistoryEntry :=
  let acc := (jsonUnmarshal resp.Value Account.zero).1
  { TxId := resp.TxId, Timestamp := resp.Timestamp, IsDelete := resp.IsDelete, Value := acc }

/-- The loop of `GetAccountHistory` over the items the iterator still holds,
`i` being the index of the next one. -/
def historyLoop (s : Stub) (dealerId : GoString) :
    List KeyModification → Nat → List HistoryEntry → Except Error (List HistoryEntry)
  | [], _, history => .ok history
  | resp :: rest, i, history =>
    match s.nextErr dealerId i with
    | some err => .error err
    | none => historyLoop s dealerId rest (i + 1) (history ++ [historyEntry resp])

/-- Iterator call `Close()` on the history iterator of a key: the error it
returns. -/
def Stub.Close (s : Stub) (key : GoString) : Option Error := s.closeErr key

/-- Contract operation `GetAccountHistory`. The iterator is closed by
`defer iter.Close()` once the loop has returned, and what `Close` returns is
dropped. -/
def GetAccountHistory (s : Stub) (dealerId : GoString) : Except Error (List HistoryEntry) :=
  match s.historyErr dealerId with
  | some err => .error err
  | none =>
    let result := historyLoop s dealerId (s.history dealerId) 0 []
    match s.Close dealerId with
    | _ => result

/-! ## Transactions -/

/-- An invocation of the contract. -/
inductive Call where
  | initLedger
  | accountExists (dealerId : GoString)
  | createAccount (dealerId msisdn mpin balance status transAmount transType remarks : GoString)
  | queryAccount (dealerId : GoString)
  | updateAccountBalance (dealerId balance : GoString)
  | getAccountHistory (dealerId : GoString)

/-- The error an invocation returns and the ledger it leaves. -/
def Call.run (scan : GoString → Option Float64) (s : Stub) : Call → Option Error × Stub
  | .initLedger => InitLedger s
  | .accountExists dealerId =>
    match AccountExists s dealerId with
    | .error e => (some e, s)
    | .ok _ => (none, s)
  | .createAccount dealerId msisdn mpin balance status transAmount transType remarks =>
    CreateAccount scan s dealerId msisdn mpin balance status transAmount transType remarks
  | .queryAccount dealerId =>
    match QueryAccount s dealerId with
    | .error e => (some e, s)
    | .ok _ => (none, s)
  | .updateAccountBalance dealerId balance => UpdateAccountBalance scan s dealerId balance
  | .getAccountHistory dealerId =>
    match GetAccountHistory s dealerId with
    | .error e => (some e, s)
    | .ok _ => (none, s)

/-- A transaction: an invocation with the id and the time the platform gives
it. -/
structure Tx where
  txId : String
  timestamp : Nat
  call : Call

/-- The ledger after the platform has run one transaction: the writes of an
invocation that returns an error are not committed. -/
def commit (scan : GoString → Option Float64) (s : Stub) (t : Tx) : Stub :=
  let r := t.call.run scan { s with txId := t.txId, timestamp := t.timestamp }
  match r.1 with
  | some _ => s
  | none => r.2

/-- The ledger after a sequence of transactions. -/
def runAll (scan : GoString → Option Float64) (s : Stub) (ts : List Tx) : Stub :=
  ts.foldl (commit scan) s

/-- The ledger before any transaction, with the given failures of the
stub. -/
def emptyLedger (getStateErr putStateErr historyErr : GoString → Option Error)
    (nextErr : GoString → Nat → Option Error) (closeErr : GoString → Option Error) : Stub :=
  { world := fun _ => none, history := fun _ => [], txId := "", timestamp := 0,
    getStateErr := getStateErr, putStateErr := putStateErr, historyErr := historyErr,
    nextErr := nextErr, closeErr := closeErr }

/-- A ledger stub none of whose calls fails. -/
def Stub.Sound (s : Stub) : Prop :=
  (∀ k, s.getStateErr k = none) ∧ (∀ k, s.putStateErr k = none) ∧
    (∀ k, s.historyErr k = none) ∧ (∀ k i, s.nextErr k i = none) ∧
    (∀ k, s.closeErr k = none)

/-- The record the world state holds under a key, decoded the way the
contract decodes it. -/
def recordAt (s : Stub) (key : GoString) : Account :=
  match s.world key with
  | some data => (jsonUnmarshal data Account.zero).1
  | none => Account.zero

/-- The account as a JSON round trip returns it: in every string each invalid
byte has become U+FFFD. -/
def Account.coerced (a : Account) : Account :=
  { DealerID := ofChars (toValidUTF8 a.DealerID), MSISDN := ofChars (toValidUTF8 a.MSISDN),
    MPIN := ofChars (toValidUTF8 a.MPIN), Balance := a.Balance,
    Status := ofChars (toValidUTF8 a.Status), TransAmount := a.TransAmount,
    TransType := ofChars (toValidUTF8 a.TransType),
    Remarks := ofChars (toValidUTF8 a.Remarks) }

/-- A Go string that is valid UTF-8: no step of the walk is an invalid byte. -/
def validUTF8 (s : GoString) : Prop := ∀ p ∈ s, ∃ c, p = Piece.rune c

/-- What `fmt.Sscanf(s, "%f", &x)` stores for the argument strings of the
examples below: `NaN` scans as NaN, a decimal integer as its value, and `abc`
holds no number, so nothing is stored. The table is used at these strings
only. -/
def scanTable (s : GoString) : Option Float64 :=
  if s = lit "NaN" then some .nan
  else if s = lit "500" then some (.finite 500)
  else if s = lit "1000" then some (.finite 1000)
  else if s = lit "1500" then some (.finite 1500)
  else none

/-- An empty ledger on a stub that never fails. -/
def freshLedger : Stub :=
  emptyLedger (fun _ => none) (fun _ => none) (fun _ => none) (fun _ _ => none)
    (fun _ => none)

/-- The first sample account of `InitLedger`. -/
def sampleA001 : Account := sampleAccounts.headD Account.zero

/-- The second sample account of `InitLedger`. -/
def sampleA002 : Account := (sampleAccounts.drop 1).headD Account.zero

/-- Whether a byte string is the text of a JSON object. -/
def Bytes.isObject : Bytes → Bool
  | .json (.object _) => true
  | _ => false

/-- A JSON object whose `balance` member is a string: it fails to decode as
an account. -/
def mistypedDoc : Bytes :=
  .json (.object [("balance", .string ['o', 'o', 'p', 's']), ("dealerId", .string ['X'])])

/-- A ledger whose history of `A001` holds `mistypedDoc` and then a delete,
on a stub that never fails. -/
def oddHistoryLedger : Stub :=
  { freshLedger with
    history := fun k =>
      if k = lit "A001" then
        [{ TxId := "tx1", Timestamp := 1, IsDelete := false, Value := mistypedDoc },
         { TxId := "tx2", Timestamp := 2, IsDelete := true, Value := .invalid [] }]
      else [] }

/-- An empty ledger on a stub whose every write fails. -/
def readOnlyLedger : Stub :=
  emptyLedger (fun _ => none) (fun _ => some (.stub "write refused")) (fun _ => none)
    (fun _ _ => none) (fun _ => none)

/-- The stub of `freshLedger` with a world state that holds `mistypedDoc`
under `A001` and nothing else. -/
def mistypedLedger : Stub :=
  { freshLedger with world := fun k => if k = lit "A001" then some mistypedDoc else none }

/-- An empty ledger on a stub that fails only when a history iterator is
closed. -/
def closeFailsLedger : Stub :=
  emptyLedger (fun _ => none) (fun _ => none) (fun _ => none) (fun _ _ => none)
    (fun _ => some (.stub "close failed"))

/-- Whether the transaction performs a write of the key that succeeds:
`InitLedger` writes the seeded keys, `CreateAccount` and
`UpdateAccountBalance` write their dealerId when they return no error. -/
def wrote (scan : GoString → Option Float64) (s : Stub) (t : Tx) (key : GoString) : Bool :=
  match t.call with
  | .initLedger =>
    (sampleAccounts.any fun a => decide (a.DealerID = key)) && (s.putStateErr key).isNone
  | .createAccount dealerId _ _ _ _ _ _ _ =>
    decide (dealerId = key) &&
      (t.call.run scan { s with txId := t.txId, timestamp := t.timestamp }).1.isNone
  | .updateAccountBalance dealerId _ =>
    decide (dealerId = key) &&
      (t.call.run scan { s with txId := t.txId, timestamp := t.timestamp }).1.isNone
  | _ => false

/-- The number of transactions of the sequence that write the key with
success. -/
def writeCount (scan : GoString → Option Float64) : Stub → List Tx → GoString → Nat
  | _, [], _ => 0
  | s, t :: ts, key =>
    (if wrote scan s t key then 1 else 0) + writeCount scan (commit scan s t) ts key

/-- For each transaction of the sequence that writes the key with success, in
order: its id and time, and the record the key holds once it is committed. -/
def commits (scan : GoString → Option Float64) : Stub → List Tx → GoString → List HistoryEntry
  | _, [], _ => []
  | s, t :: ts, key =>
    (if wrote scan s t key then
      [{ TxId := t.txId, Timestamp := t.timestamp, IsDelete := false,
         Value := recordAt (commit scan s t) key }]
    else []) ++ commits scan (commit scan s t) ts key

/-- The specification's example: create `A001` with balance 1000, then
update the balance to 1500. -/
def exampleTxs : List Tx :=
  [{ txId := "tx1", timestamp := 1,
     call := .createAccount (lit "A001") (lit "9998887701") (lit "1111") (lit "1000")
       (lit "active") (lit "500") (lit "credit") (lit "init") },
   { txId := "tx2", timestamp := 2, call := .updateAccountBalance (lit "A001") (lit "1500") }]

/-- The value one field of an account holds. -/
inductive FieldValue where
  | str (s : GoString)
  | num (x : Float64)
  deriving DecidableEq

/-- The value of the given field of the account. -/
def Account.get (a : Account) : Field → FieldValue
  | .dealerId => .str a.DealerID
  | .msisdn => .str a.MSISDN
  | .mpin => .str a.MPIN
  | .balance => .num a.Balance
  | .status => .str a.Status
  | .transAmount => .num a.TransAmount
  | .transType => .str a.TransType
  | .remarks => .str a.Remarks

/-- Whether the field is of type `float64`; the others are of type
`string`. -/
def Field.isNumber : Field → Bool
  | .balance => true
  | .transAmount => true
  | _ => false

/-- What a JSON value of the type of the field holds for it: a JSON string for
a field of type `string`, a JSON number within the range of `float64` for a
field of type `float64`; nothing for any other value. -/
def wellTyped (f : Field) (v : Json) : Option FieldValue :=
  if f.isNumber then
    match v with
    | .number (.value q) => some (.num (.finite q))
    | _ => none
  else
    match v with
    | .string cs => some (.str (ofChars cs))
    | _ => none

/-- The values the members of a JSON object hold for the field, in the order
of the members: those of the members that name the field and have a value of
its type. -/
def decodable (f : Field) (ms : List (String × Json)) : List FieldValue :=
  ms.filterMap fun kv => if fieldOf kv.1 = some f then wellTyped f kv.2 else none

/-- The field as the members of a JSON object leave it, said without the
decoder: the value of the last member that names the field and has a value of
its type, and the value the field had when there is no such member. -/
def keptValue (f : Field) (ms : List (String × Json)) (old : FieldValue) : FieldValue :=
  (decodable f ms).getLast?.getD old

/-! ## Lemmas on the JSON codec -/

theorem toValidUTF8_ofChars (cs : List Char) : toValidUTF8 (ofChars cs) = cs := by
  induction cs with
  | nil => rfl
  | cons c cs ih => simp [ofChars, toValidUTF8] at ih ⊢; exact ih

theorem ofChars_toValidUTF8 (s : GoString) (h : validUTF8 s) : ofChars (toValidUTF8 s) = s := by
  induction s with
  | nil => rfl
  | cons p s ih =>
    have hs : validUTF8 s := fun q hq => h q (List.mem_cons_of_mem _ hq)
    obtain ⟨c, rfl⟩ := h p (List.mem_cons_self _ _)
    have := ih hs
    simp [ofChars, toValidUTF8] at this ⊢
    exact this

theorem fieldOf_tag (f : Field) : fieldOf f.tag = some f := by
  cases f <;> decide

theorem jsonUnmarshal_jsonMarshal (a acc : Account) (b : Bytes) (h : jsonMarshal a = .ok b) :
    jsonUnmarshal b acc = (a.coerced, none) := by
  unfold jsonMarshal at h
  split at h
  · rename_i balance transAmount hb ht
    cases h
    have e1 := fieldOf_tag .dealerId
    have e2 := fieldOf_tag .msisdn
    have e3 := fieldOf_tag .mpin
    have e4 := fieldOf_tag .balance
    have e5 := fieldOf_tag .status
    have e6 := fieldOf_tag .transAmount
    have e7 := fieldOf_tag .transType
    have e8 := fieldOf_tag .remarks
    simp only [Field.tag] at e1 e2 e3 e4 e5 e6 e7 e8
    simp [jsonUnmarshal, decodeMembers, e1, e2, e3, e4, e5, e6, e7, e8, storeField,
      storeString, storeFloat, Account.coerced, hb, ht, Option.orElse]
  · cases h

/-! ## Lemmas on the stub and the operations -/

theorem jsonMarshal_isJson (a : Account) (b : Bytes) (h : jsonMarshal a = .ok b) :
    ∃ d, b = .json d := by
  unfold jsonMarshal at h
  split at h
  · cases h; exact ⟨_, rfl⟩
  · cases h

/-- A write of an encoded account that the stub accepts. -/
theorem PutState_json (s : Stub) (key : GoString) (d : Json) (h : s.putStateErr key = none) :
    s.PutState key (.json d) =
      (none,
        { s with
          world := fun k => if k = key then some (.json d) else s.world k
          history := fun k =>
            if k = key then
              s.history k ++ [{ TxId := s.txId, Timestamp := s.timestamp, IsDelete := false,
                                Value := .json d }]
            else s.history k }) := by
  simp [Stub.PutState, h]

/-- A write that the stub refuses. -/
theorem PutState_err (s : Stub) (key : GoString) (b : Bytes) (e : Error)
    (h : s.putStateErr key = some e) : s.PutState key b = (some e, s) := by
  simp [Stub.PutState, h]

/-- What a successful `CreateAccount` has done. -/
theorem CreateAccount_ok (scan : GoString → Option Float64) (s : Stub)
    (dealerId msisdn mpin balanceStr status transAmountStr transType remarks : GoString)
    (h : (CreateAccount scan s dealerId msisdn mpin balanceStr status transAmountStr
      transType remarks).1 = none) :
    ∃ d, jsonMarshal
        { DealerID := dealerId, MSISDN := msisdn, MPIN := mpin,
          Balance := (scan balanceStr).getD (.finite 0), Status := status,
          TransAmount := (scan transAmountStr).getD (.finite 0), TransType := transType,
          Remarks := remarks } = .ok (.json d) ∧
      s.getStateErr dealerId = none ∧ s.world dealerId = none ∧
      s.putStateErr dealerId = none ∧
      CreateAccount scan s dealerId msisdn mpin balanceStr status transAmountStr
        transType remarks = s.PutState dealerId (.json d) := by
  unfold CreateAccount AccountExists Stub.GetState at h ⊢
  cases hg : s.getStateErr dealerId with
  | some e => simp [hg] at h
  | none =>
    cases hw : s.world dealerId with
    | some v => simp [hg, hw] at h
    | none =>
      simp only [hg, hw, Option.isSome_none] at h ⊢
      cases hm : jsonMarshal
        { DealerID := dealerId, MSISDN := msisdn, MPIN := mpin,
          Balance := (scan balanceStr).getD (.finite 0), Status := status,
          TransAmount := (scan transAmountStr).getD (.finite 0), TransType := transType,
          Remarks := remarks } with
      | error e => simp [hm] at h
      | ok b =>
        obtain ⟨d, rfl⟩ := jsonMarshal_isJson _ _ hm
        simp only [hm] at h ⊢
        cases hp : s.putStateErr dealerId with
        | some e => simp [Stub.PutState, hp] at h
        | none => exact ⟨d, by simp, by simp⟩

/-- Reading back the key an accepted write has just set. -/
theorem QueryAccount_after_put (s : Stub) (key : GoString) (d : Json) (a : Account)
    (hg : s.getStateErr key = none) (hp : s.putStateErr key = none)
    (hm : jsonMarshal a = .ok (.json d)) :
    QueryAccount (s.PutState key (.json d)).2 key = .ok a.coerced := by
  rw [PutState_json s key d hp]
  simp [QueryAccount, Stub.GetState, hg, jsonUnmarshal_jsonMarshal a _ _ hm]

/-- Reading back the key a successful `CreateAccount` has just set. -/
theorem QueryAccount_after_create (scan : GoString → Option Float64) (s : Stub)
    (dealerId msisdn mpin balance status transAmount transType remarks : GoString)
    (h : (CreateAccount scan s dealerId msisdn mpin balance status transAmount transType
      remarks).1 = none) :
    QueryAccount (CreateAccount scan s dealerId msisdn mpin balance status transAmount
        transType remarks).2 dealerId =
      .ok (Account.coerced
        { DealerID := dealerId, MSISDN := msisdn, MPIN := mpin,
          Balance := (scan balance).getD (.finite 0), Status := status,
          TransAmount := (scan transAmount).getD (.finite 0),
          TransType := transType, Remarks := remarks }) := by
  obtain ⟨d, hm, hg, _, hp, he⟩ := CreateAccount_ok scan s dealerId msisdn mpin balance status
    transAmount transType remarks h
  rw [he, QueryAccount_after_put s dealerId d _ hg hp hm]

/-- An account whose numbers are finite is encoded. -/
theorem jsonMarshal_of_finite (a : Account) (qb qt : ℚ) (hb : a.Balance = .finite qb)
    (ht : a.TransAmount = .finite qt) : ∃ d, jsonMarshal a = .ok (.json d) := by
  simp [jsonMarshal, hb, ht]

/-- An account that is encoded has finite numbers. -/
theorem jsonMarshal_ok_finite (a : Account) (b : Bytes) (h : jsonMarshal a = .ok b) :
    ∃ qb qt, a.Balance = .finite qb ∧ a.TransAmount = .finite qt := by
  unfold jsonMarshal at h
  split at h
  · rename_i qb qt hb ht
    exact ⟨qb, qt, hb, ht⟩
  · cases h

/-- `CreateAccount` on a dealerId without a record, with finite numbers and a
stub that does not fail, succeeds. -/
theorem CreateAccount_fresh_finite (scan : GoString → Option Float64) (s : Stub)
    (dealerId msisdn mpin balance status transAmount transType remarks : GoString)
    (qb qt : ℚ)
    (hg : s.getStateErr dealerId = none) (hp : s.putStateErr dealerId = none)
    (hw : s.world dealerId = none) (hb : (scan balance).getD (.finite 0) = .finite qb)
    (ht : (scan transAmount).getD (.finite 0) = .finite qt) :
    (CreateAccount scan s dealerId msisdn mpin balance status transAmount transType
      remarks).1 = none := by
  obtain ⟨d, hm⟩ := jsonMarshal_of_finite
    { DealerID := dealerId, MSISDN := msisdn, MPIN := mpin,
      Balance := (scan balance).getD (.finite 0), Status := status,
      TransAmount := (scan transAmount).getD (.finite 0), TransType := transType,
      Remarks := remarks } qb qt hb ht
  simp [CreateAccount, AccountExists, Stub.GetState, hg, hw, hm, PutState_json _ _ _ hp]

/-- `UpdateAccountBalance` on a record written by the contract, with a finite
new balance and a stub that does not fail, succeeds and sets the balance. -/
theorem UpdateAccountBalance_finite (scan : GoString → Option Float64) (s : Stub)
    (dealerId newBalance : GoString) (a : Account) (b : Bytes) (q : ℚ)
    (hg : s.getStateErr dealerId = none) (hp : s.putStateErr dealerId = none)
    (hw : s.world dealerId = some b) (hm : jsonMarshal a = .ok b)
    (hq : (scan newBalance).getD (.finite 0) = .finite q) :
    (UpdateAccountBalance scan s dealerId newBalance).1 = none ∧
      QueryAccount (UpdateAccountBalance scan s dealerId newBalance).2 dealerId =
        .ok { a.coerced with Balance := .finite q } := by
  have hu := jsonUnmarshal_jsonMarshal a Account.zero b hm
  obtain ⟨qb, qt, _, ht⟩ := jsonMarshal_ok_finite a b hm
  obtain ⟨d, hm2⟩ := jsonMarshal_of_finite { a.coerced with Balance := .finite q } q qt rfl
    (by simpa [Account.coerced] using ht)
  simp only [UpdateAccountBalance, Stub.GetState, hg, hw, hu, hq, hm2]
  refine ⟨by simp [PutState_json _ _ _ hp], ?_⟩
  rw [QueryAccount_after_put s dealerId d _ hg hp hm2]
  simp [Account.coerced, toValidUTF8_ofChars]

/-- The loop of `GetAccountHistory` when the iterator does not fail. -/
theorem historyLoop_ok (s : Stub) (k : GoString) (h : ∀ i, s.nextErr k i = none)
    (items : List KeyModification) (i : Nat) (acc : List HistoryEntry) :
    historyLoop s k items i acc = .ok (acc ++ items.map historyEntry) := by
  induction items generalizing i acc with
  | nil => simp [historyLoop]
  | cons x xs ih => simp [historyLoop, h, ih]

/-- The loop of `GetAccountHistory` when the iterator fails at some item. -/
theorem historyLoop_fails (s : Stub) (k : GoString) (items : List KeyModification)
    (start : Nat) (acc : List HistoryEntry)
    (h : ∃ i, i < items.length ∧ s.nextErr k (start + i) ≠ none) :
    ∃ e, historyLoop s k items start acc = .error e := by
  induction items generalizing start acc with
  | nil =>
    obtain ⟨i, hi, _⟩ := h
    simp at hi
  | cons x xs ih =>
    cases hn : s.nextErr k start with
    | some e => exact ⟨e, by simp [historyLoop, hn]⟩
    | none =>
      obtain ⟨i, hi, he⟩ := h
      cases i with
      | zero => simp [hn] at he
      | succ j =>
        have hj : j < xs.length := by simpa using hi
        have he2 : s.nextErr k (start + 1 + j) ≠ none := by
          have : start + 1 + j = start + (j + 1) := by omega
          rw [this]; exact he
        obtain ⟨e, h2⟩ := ih (start + 1) (acc ++ [historyEntry x]) ⟨j, hj, he2⟩
        exact ⟨e, by simp [historyLoop, hn, h2]⟩

/-- The loop of `GetAccountHistory` does not depend on what closing the
iterator returns. -/
theorem historyLoop_closeErr (s : Stub) (k : GoString) (c : GoString → Option Error)
    (items : List KeyModification) :
    ∀ (i : Nat) (acc : List HistoryEntry),
      historyLoop { s with closeErr := c } k items i acc = historyLoop s k items i acc := by
  induction items with
  | nil => intro i acc; simp [historyLoop]
  | cons x xs ih =>
    intro i acc
    cases hn : s.nextErr k i with
    | some e => simp [historyLoop, hn]
    | none => simp [historyLoop, hn, ih]

/-- `GetAccountHistory` does not depend on what closing the iterator
returns. -/
theorem GetAccountHistory_closeErr (s : Stub) (k : GoString) (c : GoString → Option Error) :
    GetAccountHistory { s with closeErr := c } k = GetAccountHistory s k := by
  cases hh : s.historyErr k with
  | some e => simp [GetAccountHistory, hh]
  | none => simp [GetAccountHistory, hh, historyLoop_closeErr]

/-- `GetAccountHistory` when the history reads do not fail. -/
theorem GetAccountHistory_ok (s : Stub) (k : GoString) (hh : s.historyErr k = none)
    (hn : ∀ i, s.nextErr k i = none) :
    GetAccountHistory s k = .ok ((s.history k).map historyEntry) := by
  simp [GetAccountHistory, hh, historyLoop_ok s k hn]

/-- What an accepted write of an encoded account does to the history and the
world state of a key. -/
theorem PutState_json_history (s : Stub) (key k : GoString) (d : Json)
    (h : s.putStateErr key = none) :
    (s.PutState key (.json d)).2.history k =
        s.history k ++ (if k = key then
          [{ TxId := s.txId, Timestamp := s.timestamp, IsDelete := false,
             Value := .json d }] else []) ∧
      (s.PutState key (.json d)).2.world k =
        (if k = key then some (.json d) else s.world k) ∧
      (s.PutState key (.json d)).2.getStateErr = s.getStateErr ∧
      (s.PutState key (.json d)).2.putStateErr = s.putStateErr ∧
      (s.PutState key (.json d)).2.historyErr = s.historyErr ∧
      (s.PutState key (.json d)).2.nextErr = s.nextErr ∧
      (s.PutState key (.json d)).2.txId = s.txId ∧
      (s.PutState key (.json d)).2.timestamp = s.timestamp := by
  rw [PutState_json s key d h]
  by_cases hk : k = key <;> simp [hk]

/-- What a successful `UpdateAccountBalance` has done. -/
theorem UpdateAccountBalance_ok (scan : GoString → Option Float64) (s : Stub)
    (dealerId balanceStr : GoString)
    (h : (UpdateAccountBalance scan s dealerId balanceStr).1 = none) :
    ∃ d, s.putStateErr dealerId = none ∧
      UpdateAccountBalance scan s dealerId balanceStr = s.PutState dealerId (.json d) := by
  unfold UpdateAccountBalance Stub.GetState at h ⊢
  cases hg : s.getStateErr dealerId with
  | some e => simp [hg] at h
  | none =>
    cases hw : s.world dealerId with
    | none => simp [hg, hw] at h
    | some data =>
      simp only [hg, hw] at h ⊢
      rcases hu : jsonUnmarshal data Account.zero with ⟨old, _ | e⟩
      · simp only [hu] at h ⊢
        cases hm : jsonMarshal { old with Balance := (scan balanceStr).getD (.finite 0) } with
        | error e => simp [hm] at h
        | ok b =>
          obtain ⟨d, rfl⟩ := jsonMarshal_isJson _ _ hm
          simp only [hm] at h ⊢
          cases hp : s.putStateErr dealerId with
          | some e => simp [Stub.PutState, hp] at h
          | none => exact ⟨d, rfl, rfl⟩
      · simp [hu] at h

/-- The effect on a key of a transaction whose invocation either fails or is
one accepted write of an encoded account under `dealerId`. -/
theorem commit_of_put (s s0 : Stub) (txId : String) (timestamp : Nat) (dealerId k : GoString)
    (r : Option Error × Stub)
    (hs0 : s0 = { s with txId := txId, timestamp := timestamp })
    (hr : r.1 = none → ∃ d, s0.putStateErr dealerId = none ∧
      r = s0.PutState dealerId (.json d)) :
    let s1 := match r.1 with
      | some _ => s
      | none => r.2
    s1.historyErr = s.historyErr ∧ s1.nextErr = s.nextErr ∧
      s1.getStateErr = s.getStateErr ∧ s1.putStateErr = s.putStateErr ∧
      s1.history k = s.history k ++
        (if (decide (dealerId = k) && r.1.isNone) = true then
          [{ TxId := txId, Timestamp := timestamp, IsDelete := false,
             Value := (s1.world k).getD (.invalid []) }]
        else []) := by
  cases h1 : r.1 with
  | some e => simp
  | none =>
    obtain ⟨d, hp, hd⟩ := hr h1
    obtain ⟨e1, e2, e3, e4, e5, e6, e7, e8⟩ := PutState_json_history s0 dealerId k d hp
    simp only [hd, Option.isNone_none, Bool.and_true, decide_eq_true_eq]
    rw [e1, e2, e3, e4, e5, e6, hs0]
    refine ⟨rfl, rfl, rfl, rfl, ?_⟩
    by_cases hk : k = dealerId
    · simp [hk]
    · have hk2 : ¬ dealerId = k := fun h => hk h.symm
      simp [hk, hk2]

/-- What a write of an encoded account, accepted or refused, does to a key. -/
theorem PutState_step (u : Stub) (key k : GoString) (d : Json) :
    (u.PutState key (.json d)).2.history k =
        u.history k ++ (if k = key ∧ u.putStateErr key = none then
          [{ TxId := u.txId, Timestamp := u.timestamp, IsDelete := false,
             Value := .json d }] else []) ∧
      (u.PutState key (.json d)).2.world k =
        (if k = key ∧ u.putStateErr key = none then some (.json d) else u.world k) ∧
      (u.PutState key (.json d)).2.getStateErr = u.getStateErr ∧
      (u.PutState key (.json d)).2.putStateErr = u.putStateErr ∧
      (u.PutState key (.json d)).2.historyErr = u.historyErr ∧
      (u.PutState key (.json d)).2.nextErr = u.nextErr ∧
      (u.PutState key (.json d)).2.txId = u.txId ∧
      (u.PutState key (.json d)).2.timestamp = u.timestamp := by
  cases hp : u.putStateErr key with
  | some e => rw [PutState_err u key _ e hp]; simp
  | none =>
    obtain ⟨e1, e2, e3, e4, e5, e6, e7, e8⟩ := PutState_json_history u key k d hp
    rw [e1, e2, e3, e4, e5, e6, e7, e8]
    simp

/-- The effect of `InitLedger` on a key. -/
theorem InitLedger_step (s0 : Stub) (k : GoString) :
    (InitLedger s0).2.historyErr = s0.historyErr ∧
      (InitLedger s0).2.nextErr = s0.nextErr ∧
      (InitLedger s0).2.getStateErr = s0.getStateErr ∧
      (InitLedger s0).2.putStateErr = s0.putStateErr ∧
      (InitLedger s0).2.history k = s0.history k ++
        (if ((sampleAccounts.any fun a => decide (a.DealerID = k)) &&
            (s0.putStateErr k).isNone) = true then
          [{ TxId := s0.txId, Timestamp := s0.timestamp, IsDelete := false,
             Value := ((InitLedger s0).2.world k).getD (.invalid []) }]
        else []) := by
  have m1 : ∃ d, marshalOrNil sampleA001 = .json d := ⟨_, rfl⟩
  have m2 : ∃ d, marshalOrNil sampleA002 = .json d := ⟨_, rfl⟩
  obtain ⟨d1, hd1⟩ := m1
  obtain ⟨d2, hd2⟩ := m2
  have hne : lit "A002" ≠ lit "A001" := by decide
  have hi : InitLedger s0 =
      (none, ((s0.PutState (lit "A001") (.json d1)).2.PutState (lit "A002") (.json d2)).2) := by
    rw [← hd1, ← hd2]; rfl
  have hany : (sampleAccounts.any fun a => decide (a.DealerID = k)) =
      (decide (k = lit "A001") || decide (k = lit "A002")) := by
    have e1 : sampleAccounts = [sampleA001, sampleA002] := rfl
    have e2 : sampleA001.DealerID = lit "A001" := rfl
    have e3 : sampleA002.DealerID = lit "A002" := rfl
    simp [e1, e2, e3, eq_comm]
  obtain ⟨a1, a2, a3, a4, a5, a6, a7, a8⟩ := PutState_step s0 (lit "A001") k d1
  obtain ⟨b1, b2, b3, b4, b5, b6, b7, b8⟩ :=
    PutState_step (s0.PutState (lit "A001") (.json d1)).2 (lit "A002") k d2
  rw [hi, hany]
  simp only [b1, b2, b3, b4, b5, b6, b7, b8, a1, a2, a3, a4, a5, a6, a7, a8, true_and]
  by_cases h1 : k = lit "A001"
  · subst h1
    cases hp : s0.putStateErr (lit "A001") <;> simp [hp, hne.symm]
  · by_cases h2 : k = lit "A002"
    · subst h2
      cases hp : s0.putStateErr (lit "A002") <;> simp [hp, hne]
    · simp [h1, h2]

/-- The effect of one committed transaction on a key: the failures of the
stub stay as they are, and the history of the key gains one item, holding what
the key then holds, exactly when the transaction wrote the key. -/
theorem commit_spec (scan : GoString → Option Float64) (s : Stub) (t : Tx) (k : GoString) :
    (commit scan s t).historyErr = s.historyErr ∧
      (commit scan s t).nextErr = s.nextErr ∧
      (commit scan s t).getStateErr = s.getStateErr ∧
      (commit scan s t).putStateErr = s.putStateErr ∧
      (commit scan s t).history k = s.history k ++
        (if wrote scan s t k = true then
          [{ TxId := t.txId, Timestamp := t.timestamp, IsDelete := false,
             Value := ((commit scan s t).world k).getD (.invalid []) }]
        else []) := by
  obtain ⟨txId, timestamp, call⟩ := t
  cases call with
  | initLedger => exact InitLedger_step { s with txId := txId, timestamp := timestamp } k
  | createAccount dealerId msisdn mpin balance status transAmount transType remarks =>
    refine commit_of_put s { s with txId := txId, timestamp := timestamp } txId timestamp
      dealerId k (CreateAccount scan { s with txId := txId, timestamp := timestamp } dealerId
        msisdn mpin balance status transAmount transType remarks) rfl ?_
    intro h
    obtain ⟨d, _, _, _, hp, he⟩ := CreateAccount_ok scan _ dealerId msisdn mpin balance status
      transAmount transType remarks h
    exact ⟨d, hp, he⟩
  | updateAccountBalance dealerId balance =>
    exact commit_of_put s { s with txId := txId, timestamp := timestamp } txId timestamp
      dealerId k (UpdateAccountBalance scan { s with txId := txId, timestamp := timestamp }
        dealerId balance) rfl (UpdateAccountBalance_ok scan _ dealerId balance)
  | accountExists dealerId =>
    cases h : AccountExists { s with txId := txId, timestamp := timestamp } dealerId <;>
      simp [commit, Call.run, wrote, h]
  | queryAccount dealerId =>
    cases h : QueryAccount { s with txId := txId, timestamp := timestamp } dealerId <;>
      simp [commit, Call.run, wrote, h]
  | getAccountHistory dealerId =>
    cases h : GetAccountHistory { s with txId := txId, timestamp := timestamp } dealerId <;>
      simp [commit, Call.run, wrote, h]

/-- The history of a key after a sequence of transactions. -/
theorem runAll_history (scan : GoString → Option Float64) (k : GoString) (ts : List Tx)
    (s : Stub) :
    (runAll scan s ts).historyErr = s.historyErr ∧
      (runAll scan s ts).nextErr = s.nextErr ∧
      ((runAll scan s ts).history k).map historyEntry =
        (s.history k).map historyEntry ++ commits scan s ts k := by
  induction ts generalizing s with
  | nil => simp [runAll, commits]
  | cons t ts ih =>
    obtain ⟨h1, h2, _, _, h5⟩ := commit_spec scan s t k
    obtain ⟨i1, i2, i3⟩ := ih (commit scan s t)
    have hrun : runAll scan s (t :: ts) = runAll scan (commit scan s t) ts := rfl
    rw [hrun, i1, i2, i3, h1, h2, h5]
    refine ⟨rfl, rfl, ?_⟩
    cases hw : wrote scan s t k
    · simp [commits, hw]
    · cases hv : (commit scan s t).world k <;>
        simp [commits, hw, historyEntry, recordAt, hv, jsonUnmarshal]

/-- The number of entries of `commits`. -/
theorem commits_length (scan : GoString → Option Float64) (k : GoString) (ts : List Tx)
    (s : Stub) : (commits scan s ts k).length = writeCount scan s ts k := by
  induction ts generalizing s with
  | nil => rfl
  | cons t ts ih =>
    cases hw : wrote scan s t k <;> simp [commits, writeCount, hw, ih, Nat.add_comm]

/-- One member decoded into its field changes the field named to the value of
the member when that is of the type of the field, and nothing else. -/
theorem storeField_get (g f : Field) (v : Json) (a : Account) :
    (storeField g v a).1.get f =
      if g = f then (wellTyped f v).getD (a.get f) else a.get f := by
  cases g <;> cases f <;> rcases v with _ | _ | (_ | _) | _ | _ | _ <;>
    simp [storeField, storeString, storeFloat, Account.get, wellTyped, Field.isNumber]

/-- The default of the last element of a list with one more element in
front. -/
theorem getLast?_getD_cons {α : Type} (x d : α) (l : List α) :
    ((x :: l).getLast?).getD d = (l.getLast?).getD x := by
  simp [List.getLast?_cons]

/-- The decoder leaves every field with the value of the last member that
names it and has a value of its type, whatever the other members are. -/
theorem decodeMembers_get (f : Field) (ms : List (String × Json)) :
    ∀ (a : Account) (e : Option Error),
      (decodeMembers ms a e).1.get f = keptValue f ms (a.get f) := by
  induction ms with
  | nil => intro a e; simp [decodeMembers, keptValue, decodable]
  | cons kv rest ih =>
    obtain ⟨k, v⟩ := kv
    intro a e
    cases hk : fieldOf k with
    | none =>
      have h := ih a e
      simp only [keptValue, decodable] at h
      simp [decodeMembers, hk, keptValue, decodable, h]
    | some g =>
      have h := ih (storeField g v a).1 (e.orElse fun _ => (storeField g v a).2)
      simp only [keptValue, decodable] at h
      simp only [decodeMembers, hk, keptValue, decodable, h, storeField_get]
      by_cases hgf : g = f
      · subst hgf
        cases hw : wellTyped g v with
        | none => simp [List.filterMap_cons, hk, hw]
        | some x => simp [List.filterMap_cons, hk, hw, List.getLast?_cons]
      · simp [List.filterMap_cons, hk, hgf]

/-! ## C1 -/

/-- C1, as stated, fails: on an empty ledger `CreateAccount` with the msisdn
`"\xff"` succeeds, and the record `QueryAccount` then returns has the msisdn
U+FFFD, not the argument. -/
theorem c1_counterexample :
    ¬ (∀ (scan : GoString → Option Float64) (s : Stub)
        (dealerId msisdn mpin balance status transAmount transType remarks : GoString),
        s.world dealerId = none →
        (CreateAccount scan s dealerId msisdn mpin balance status transAmount transType
          remarks).1 = none →
        QueryAccount (CreateAccount scan s dealerId msisdn mpin balance status transAmount
          transType remarks).2 dealerId =
          .ok { DealerID := dealerId, MSISDN := msisdn, MPIN := mpin,
                Balance := (scan balance).getD (.finite 0), Status := status,
                TransAmount := (scan transAmount).getD (.finite 0),
                TransType := transType, Remarks := remarks }) := by
  intro h
  have h1 := h (fun _ => none)
    (emptyLedger (fun _ => none) (fun _ => none) (fun _ => none) (fun _ _ => none)
      (fun _ => none))
    (lit "D1") [Piece.bad 255] [] [] [] [] [] [] rfl rfl
  rw [QueryAccount_after_create (fun _ => none)
    (emptyLedger (fun _ => none) (fun _ => none) (fun _ => none) (fun _ _ => none)
      (fun _ => none))
    (lit "D1") [Piece.bad 255] [] [] [] [] [] [] rfl] at h1
  have h2 := congrArg Account.MSISDN (Except.ok.inj h1)
  revert h2
  decide

/-- C1, amended: after a successful `CreateAccount`, `QueryAccount` on the
same dealerId returns the record of the arguments in which every invalid
UTF-8 byte of a string has become U+FFFD, with the two numbers as scanned
(zero when nothing was scanned); so a string argument that is valid UTF-8
comes back as it was given. -/
theorem c1_create_then_query (scan : GoString → Option Float64) (s : Stub)
    (dealerId msisdn mpin balance status transAmount transType remarks : GoString)
    (h : (CreateAccount scan s dealerId msisdn mpin balance status transAmount transType
      remarks).1 = none) :
    QueryAccount (CreateAccount scan s dealerId msisdn mpin balance status transAmount
        transType remarks).2 dealerId =
      .ok { DealerID := ofChars (toValidUTF8 dealerId), MSISDN := ofChars (toValidUTF8 msisdn),
            MPIN := ofChars (toValidUTF8 mpin), Balance := (scan balance).getD (.finite 0),
            Status := ofChars (toValidUTF8 status),
            TransAmount := (scan transAmount).getD (.finite 0),
            TransType := ofChars (toValidUTF8 transType),
            Remarks := ofChars (toValidUTF8 remarks) } ∧
      ∀ x : GoString, validUTF8 x → ofChars (toValidUTF8 x) = x := by
  exact ⟨QueryAccount_after_create scan s dealerId msisdn mpin balance status transAmount
    transType remarks h, ofChars_toValidUTF8⟩

/-- C1, at an example: the account of the specification's example is created
on an empty ledger and read back. -/
theorem c1_create_then_query_witness :
    (CreateAccount scanTable freshLedger (lit "A001") (lit "9998887701") (lit "1111")
        (lit "1000") (lit "active") (lit "500") (lit "credit") (lit "init")).1 = none ∧
      QueryAccount (CreateAccount scanTable freshLedger (lit "A001") (lit "9998887701")
        (lit "1111") (lit "1000") (lit "active") (lit "500") (lit "credit")
        (lit "init")).2 (lit "A001") =
      .ok { DealerID := ofChars (toValidUTF8 (lit "A001")),
            MSISDN := ofChars (toValidUTF8 (lit "9998887701")),
            MPIN := ofChars (toValidUTF8 (lit "1111")),
            Balance := (scanTable (lit "1000")).getD (.finite 0),
            Status := ofChars (toValidUTF8 (lit "active")),
            TransAmount := (scanTable (lit "500")).getD (.finite 0),
            TransType := ofChars (toValidUTF8 (lit "credit")),
            Remarks := ofChars (toValidUTF8 (lit "init")) } :=
  ⟨rfl, (c1_create_then_query scanTable freshLedger (lit "A001") (lit "9998887701")
    (lit "1111") (lit "1000") (lit "active") (lit "500") (lit "credit") (lit "init") rfl).1⟩

/-! ## C2 -/

/-- C2: when `CreateAccount` has succeeded for a dealerId, a second
`CreateAccount` for the same dealerId, in any later transaction and with any
other arguments, returns the "already exists" error and leaves the world
state, every history and all the rest of the ledger as they were. -/
theorem c2_create_twice (scan scan2 : GoString → Option Float64) (s : Stub)
    (dealerId msisdn mpin balance status transAmount transType remarks : GoString)
    (msisdn2 mpin2 balance2 status2 transAmount2 transType2 remarks2 : GoString)
    (txId2 : String) (timestamp2 : Nat)
    (h : (CreateAccount scan s dealerId msisdn mpin balance status transAmount transType
      remarks).1 = none) :
    let s1 := (CreateAccount scan s dealerId msisdn mpin balance status transAmount
      transType remarks).2
    let s2 := { s1 with txId := txId2, timestamp := timestamp2 }
    let r := CreateAccount scan2 s2 dealerId msisdn2 mpin2 balance2 status2 transAmount2
      transType2 remarks2
    r.1 = some (.alreadyExists dealerId) ∧ r.2 = s2 := by
  obtain ⟨d, _, hg, _, hp, he⟩ := CreateAccount_ok scan s dealerId msisdn mpin balance status
    transAmount transType remarks h
  rw [he, PutState_json s dealerId d hp]
  simp [CreateAccount, AccountExists, Stub.GetState, hg]

/-- C2, at an example: the account of the specification's example is created
twice. -/
theorem c2_create_twice_witness :
    (CreateAccount scanTable freshLedger (lit "A001") (lit "9998887701") (lit "1111")
        (lit "1000") (lit "active") (lit "500") (lit "credit") (lit "init")).1 = none ∧
      (CreateAccount scanTable
        { (CreateAccount scanTable freshLedger (lit "A001") (lit "9998887701") (lit "1111")
            (lit "1000") (lit "active") (lit "500") (lit "credit") (lit "init")).2 with
          txId := "tx2", timestamp := 2 }
        (lit "A001") (lit "9998887701") (lit "1111") (lit "1000") (lit "active")
        (lit "500") (lit "credit") (lit "init")).1 = some (.alreadyExists (lit "A001")) :=
  ⟨rfl, (c2_create_twice scanTable scanTable freshLedger (lit "A001") (lit "9998887701")
    (lit "1111") (lit "1000") (lit "active") (lit "500") (lit "credit") (lit "init")
    (lit "9998887701") (lit "1111") (lit "1000") (lit "active") (lit "500") (lit "credit")
    (lit "init") "tx2" 2 rfl).1⟩

/-! ## C3 -/

/-- C3: when dealerId holds a record written by the contract (the encoding
of an account) and `QueryAccount` returns `r` for it, a successful
`UpdateAccountBalance` makes `QueryAccount` return `r` with the balance
replaced by the scanned number (zero when nothing was scanned) and every
other field as in `r`, and leaves the value under every other key as it
was. -/
theorem c3_update_only_balance (scan : GoString → Option Float64) (s : Stub)
    (dealerId newBalance : GoString) (a r : Account) (b : Bytes)
    (hw : s.world dealerId = some b) (hm : jsonMarshal a = .ok b)
    (hq : QueryAccount s dealerId = .ok r)
    (h : (UpdateAccountBalance scan s dealerId newBalance).1 = none) :
    QueryAccount (UpdateAccountBalance scan s dealerId newBalance).2 dealerId =
        .ok { r with Balance := (scan newBalance).getD (.finite 0) } ∧
      ∀ k, k ≠ dealerId →
        (UpdateAccountBalance scan s dealerId newBalance).2.world k = s.world k := by
  cases hg : s.getStateErr dealerId with
  | some e => simp [UpdateAccountBalance, Stub.GetState, hg] at h
  | none =>
    have hu := jsonUnmarshal_jsonMarshal a Account.zero b hm
    have hr : r = a.coerced := by
      simp [QueryAccount, Stub.GetState, hg, hw, hu] at hq
      exact hq.symm
    subst hr
    simp only [UpdateAccountBalance, Stub.GetState, hg, hw, hu] at h ⊢
    cases hm2 : jsonMarshal { a.coerced with Balance := (scan newBalance).getD (.finite 0) } with
    | error e => simp [hm2] at h
    | ok b2 =>
      obtain ⟨d2, rfl⟩ := jsonMarshal_isJson _ _ hm2
      simp only [hm2] at h ⊢
      cases hp : s.putStateErr dealerId with
      | some e => simp [Stub.PutState, hp] at h
      | none =>
        refine ⟨?_, ?_⟩
        · rw [QueryAccount_after_put s dealerId d2 _ hg hp hm2]
          simp [Account.coerced, toValidUTF8_ofChars]
        · intro k hk
          simp [PutState_json s dealerId d2 hp, hk]

/-- C3, at an example: after `InitLedger` on an empty ledger the balance of
`A001` is updated to 1500. -/
theorem c3_update_only_balance_witness :
    QueryAccount (UpdateAccountBalance scanTable (InitLedger freshLedger).2 (lit "A001")
        (lit "1500")).2 (lit "A001") =
      .ok { sampleA001 with Balance := (scanTable (lit "1500")).getD (.finite 0) } :=
  (c3_update_only_balance scanTable (InitLedger freshLedger).2 (lit "A001") (lit "1500")
    sampleA001 sampleA001 (marshalOrNil sampleA001) rfl rfl rfl rfl).1

/-! ## C4 -/

/-- C4: when dealerId has no record, `UpdateAccountBalance` returns an error
for every new balance and leaves the ledger as it was (so no history entry is
added), and `QueryAccount`, which only reads, returns an error; the error is
the "does not exist" one in both whenever the read of the world state itself
does not fail. -/
theorem c4_absent_record (scan : GoString → Option Float64) (s : Stub)
    (dealerId newBalance : GoString) (hw : s.world dealerId = none) :
    (∃ e, (UpdateAccountBalance scan s dealerId newBalance).1 = some e) ∧
      (UpdateAccountBalance scan s dealerId newBalance).2 = s ∧
      (∃ e, QueryAccount s dealerId = .error e) ∧
      (s.getStateErr dealerId = none →
        (UpdateAccountBalance scan s dealerId newBalance).1 = some (.doesNotExist dealerId) ∧
        QueryAccount s dealerId = .error (.doesNotExist dealerId)) := by
  cases hg : s.getStateErr dealerId <;>
    simp [UpdateAccountBalance, QueryAccount, Stub.GetState, hg, hw]

/-- C4, at an example: an empty ledger holds no record for `A001`. -/
theorem c4_absent_record_witness :
    (UpdateAccountBalance scanTable freshLedger (lit "A001") (lit "1500")).1 =
        some (.doesNotExist (lit "A001")) ∧
      (UpdateAccountBalance scanTable freshLedger (lit "A001") (lit "1500")).2 = freshLedger ∧
      QueryAccount freshLedger (lit "A001") = .error (.doesNotExist (lit "A001")) :=
  have h := c4_absent_record scanTable freshLedger (lit "A001") (lit "1500") rfl
  ⟨(h.2.2.2 rfl).1, h.2.1, (h.2.2.2 rfl).2⟩

/-! ## C6 -/

/-- C6, as stated, fails: on an empty ledger whose stub never fails, `D1` has
no record and `CreateAccount` with the balance `NaN` returns the encoder's
error and writes nothing. -/
theorem c6_counterexample :
    freshLedger.Sound ∧ freshLedger.world (lit "D1") = none ∧
      CreateAccount scanTable freshLedger (lit "D1") (lit "9998887701") (lit "1111")
        (lit "NaN") (lit "active") (lit "500") (lit "credit") (lit "init") =
        (some .unsupportedValue, freshLedger) :=
  ⟨⟨fun _ => rfl, fun _ => rfl, fun _ => rfl, fun _ _ => rfl, fun _ => rfl⟩, rfl, rfl⟩

/-- C6, amended: when the read and the write of the world state for dealerId
do not fail, `CreateAccount` returns the "already exists" error and writes
nothing if dealerId has a record; if it has none and both numbers are finite
(scanned so, or zero because nothing was scanned) it succeeds and writes the
encoding of the new account under dealerId; if it has none and a scanned
number is NaN or infinite it returns the encoder's error and writes
nothing. -/
theorem c6_create_outcome (scan : GoString → Option Float64) (s : Stub)
    (dealerId msisdn mpin balance status transAmount transType remarks : GoString)
    (hg : s.getStateErr dealerId = none) (hp : s.putStateErr dealerId = none) :
    let r := CreateAccount scan s dealerId msisdn mpin balance status transAmount transType
      remarks
    let account : Account :=
      { DealerID := dealerId, MSISDN := msisdn, MPIN := mpin,
        Balance := (scan balance).getD (.finite 0), Status := status,
        TransAmount := (scan transAmount).getD (.finite 0), TransType := transType,
        Remarks := remarks }
    (s.world dealerId ≠ none → r = (some (.alreadyExists dealerId), s)) ∧
      (s.world dealerId = none →
        (∃ qb qt, account.Balance = .finite qb ∧ account.TransAmount = .finite qt) →
        r.1 = none ∧ ∃ d, jsonMarshal account = .ok (.json d) ∧
          r.2.world dealerId = some (.json d)) ∧
      (s.world dealerId = none →
        ¬ (∃ qb qt, account.Balance = .finite qb ∧ account.TransAmount = .finite qt) →
        r = (some .unsupportedValue, s)) := by
  intro r account
  refine ⟨?_, ?_, ?_⟩
  · intro hw
    obtain ⟨v, hv⟩ := Option.ne_none_iff_exists'.mp hw
    simp [r, CreateAccount, AccountExists, Stub.GetState, hg, hv]
  · rintro hw ⟨qb, qt, hb, ht⟩
    simp only [account] at hb ht
    have hm : jsonMarshal account = .ok (.json (.object [
        ("dealerId", .string (toValidUTF8 dealerId)),
        ("msisdn", .string (toValidUTF8 msisdn)),
        ("mpin", .string (toValidUTF8 mpin)),
        ("balance", .number (.value qb)),
        ("status", .string (toValidUTF8 status)),
        ("transAmount", .number (.value qt)),
        ("transType", .string (toValidUTF8 transType)),
        ("remarks", .string (toValidUTF8 remarks))])) := by
      simp [account, jsonMarshal, hb, ht]
    simp only [account] at hm
    simp [r, CreateAccount, AccountExists, Stub.GetState, hg, hw, hm, PutState_json _ _ _ hp]
  · intro hw hn
    have hm : jsonMarshal account = .error .unsupportedValue := by
      unfold jsonMarshal
      split
      · rename_i qb qt hb ht
        exact absurd ⟨qb, qt, hb, ht⟩ hn
      · rfl
    simp only [account] at hm
    simp [r, CreateAccount, AccountExists, Stub.GetState, hg, hw, hm]

/-- C6, at an example: the account of the specification's example is created
on an empty ledger. -/
theorem c6_create_outcome_witness :
    (CreateAccount scanTable freshLedger (lit "A001") (lit "9998887701") (lit "1111")
        (lit "1000") (lit "active") (lit "500") (lit "credit") (lit "init")).1 = none :=
  ((c6_create_outcome scanTable freshLedger (lit "A001") (lit "9998887701") (lit "1111")
    (lit "1000") (lit "active") (lit "500") (lit "credit") (lit "init") rfl rfl).2.1 rfl
    ⟨1000, 500, rfl, rfl⟩).1

/-! ## C9 -/

/-- C9, as stated, fails: on an empty ledger whose stub never fails,
`CreateAccount` with the unparsable balance `abc` and the transAmount `NaN`
returns the encoder's error and stores nothing. -/
theorem c9_counterexample :
    scanTable (lit "abc") = none ∧ freshLedger.Sound ∧ freshLedger.world (lit "D1") = none ∧
      CreateAccount scanTable freshLedger (lit "D1") (lit "9998887701") (lit "1111")
        (lit "abc") (lit "active") (lit "NaN") (lit "credit") (lit "init") =
        (some .unsupportedValue, freshLedger) :=
  ⟨rfl, ⟨fun _ => rfl, fun _ => rfl, fun _ => rfl, fun _ _ => rfl, fun _ => rfl⟩, rfl, rfl⟩

/-- C9, amended: with a stub that does not fail for dealerId, `CreateAccount`
on a dealerId without a record succeeds and stores Balance = 0 when nothing is
scanned from balance and transAmount is finite (scanned so, or zero), and
stores TransAmount = 0 when nothing is scanned from transAmount and balance is
finite; `UpdateAccountBalance` on a record written by the contract succeeds
and sets Balance to 0 when nothing is scanned from newBalance. -/
theorem c9_unparsable_is_zero (scan : GoString → Option Float64) (s : Stub)
    (dealerId msisdn mpin balance status transAmount transType remarks : GoString)
    (hg : s.getStateErr dealerId = none) (hp : s.putStateErr dealerId = none) :
    let r := CreateAccount scan s dealerId msisdn mpin balance status transAmount transType
      remarks
    let u := UpdateAccountBalance scan s dealerId balance
    (s.world dealerId = none → scan balance = none →
        (∃ qt, (scan transAmount).getD (.finite 0) = .finite qt) →
        r.1 = none ∧ ∃ acc, QueryAccount r.2 dealerId = .ok acc ∧ acc.Balance = .finite 0) ∧
      (s.world dealerId = none → scan transAmount = none →
        (∃ qb, (scan balance).getD (.finite 0) = .finite qb) →
        r.1 = none ∧ ∃ acc, QueryAccount r.2 dealerId = .ok acc ∧
          acc.TransAmount = .finite 0) ∧
      (∀ a b, s.world dealerId = some b → jsonMarshal a = .ok b → scan balance = none →
        u.1 = none ∧ ∃ acc, QueryAccount u.2 dealerId = .ok acc ∧
          acc.Balance = .finite 0) := by
  intro r u
  refine ⟨?_, ?_, ?_⟩
  · rintro hw hb ⟨qt, ht⟩
    have h1 : r.1 = none := CreateAccount_fresh_finite scan s dealerId msisdn mpin balance
      status transAmount transType remarks 0 qt hg hp hw (by simp [hb]) ht
    refine ⟨h1, _, QueryAccount_after_create scan s dealerId msisdn mpin balance status
      transAmount transType remarks h1, ?_⟩
    simp [Account.coerced, hb]
  · rintro hw ht ⟨qb, hb⟩
    have h1 : r.1 = none := CreateAccount_fresh_finite scan s dealerId msisdn mpin balance
      status transAmount transType remarks qb 0 hg hp hw hb (by simp [ht])
    refine ⟨h1, _, QueryAccount_after_create scan s dealerId msisdn mpin balance status
      transAmount transType remarks h1, ?_⟩
    simp [Account.coerced, ht]
  · intro a b hw hm hb
    obtain ⟨h1, h2⟩ := UpdateAccountBalance_finite scan s dealerId balance a b 0 hg hp hw hm
      (by simp [hb])
    exact ⟨h1, _, h2, rfl⟩

/-- C9, at an example: on an empty ledger an account is created with the
unparsable balance `abc`. -/
theorem c9_unparsable_is_zero_witness :
    (CreateAccount scanTable freshLedger (lit "A001") (lit "9998887701") (lit "1111")
        (lit "abc") (lit "active") (lit "500") (lit "credit") (lit "init")).1 = none :=
  ((c9_unparsable_is_zero scanTable freshLedger (lit "A001") (lit "9998887701") (lit "1111")
    (lit "abc") (lit "active") (lit "500") (lit "credit") (lit "init") rfl rfl).1 rfl rfl
    ⟨500, rfl⟩).1

/-! ## C7 -/

/-- C7, as stated, fails: the first item of the history of `A001` in
`oddHistoryLedger` fails to decode as an account, and the entry
`GetAccountHistory` returns for it holds the dealerId `X`, not the zero
account. -/
theorem c7_counterexample :
    (jsonUnmarshal mistypedDoc Account.zero).2 = some (.unmarshalType "balance") ∧
      GetAccountHistory oddHistoryLedger (lit "A001") =
        .ok [{ TxId := "tx1", Timestamp := 1, IsDelete := false,
               Value := { Account.zero with DealerID := lit "X" } },
             { TxId := "tx2", Timestamp := 2, IsDelete := true, Value := Account.zero }] ∧
      ({ Account.zero with DealerID := lit "X" } : Account) ≠ Account.zero :=
  ⟨rfl, rfl, by decide⟩

/-- C7, amended: when the history iterator itself does not fail,
`GetAccountHistory` returns one entry per history item, in order, whatever
the items decode to, each with the TxId, Timestamp and IsDelete of its item;
for an item whose value is not the text of a JSON object (not valid JSON, or
another JSON value) the entry's Value is the zero account; for an item whose
value is a JSON object, every field of the entry's Value is the value of the
last member that names the field with a value of its type, and zero when the
object has no such member, so that a member that decodes is kept whatever
other member is mistyped. -/
theorem c7_history_tolerates_decode_failure (s : Stub) (dealerId : GoString)
    (hh : s.historyErr dealerId = none) (hn : ∀ i, s.nextErr dealerId i = none) :
    GetAccountHistory s dealerId = .ok ((s.history dealerId).map historyEntry) ∧
      ((s.history dealerId).map historyEntry).length = (s.history dealerId).length ∧
      ∀ item ∈ s.history dealerId,
        (historyEntry item).TxId = item.TxId ∧
        (historyEntry item).Timestamp = item.Timestamp ∧
        (historyEntry item).IsDelete = item.IsDelete ∧
        (item.Value.isObject = false → (historyEntry item).Value = Account.zero) ∧
        (∀ ms, item.Value = .json (.object ms) → ∀ f,
          (historyEntry item).Value.get f = keptValue f ms (Account.zero.get f)) := by
  refine ⟨GetAccountHistory_ok s dealerId hh hn, by simp, ?_⟩
  intro item _
  refine ⟨rfl, rfl, rfl, ?_, ?_⟩
  · intro ho
    cases hv : item.Value with
    | invalid raw => simp [historyEntry, hv, jsonUnmarshal]
    | json d =>
      cases d <;> simp [historyEntry, hv, jsonUnmarshal, Bytes.isObject] at ho ⊢
  · intro ms hv f
    simp only [historyEntry, hv, jsonUnmarshal]
    exact decodeMembers_get f ms Account.zero none

/-- C7, at an example: for the history of `A001` in `oddHistoryLedger` the
entries of both items are returned, and in the entry of the first item, an
object whose `balance` member is mistyped and comes first, the Balance is zero
and the DealerID is the `X` of the member that follows. -/
theorem c7_history_tolerates_decode_failure_witness :
    GetAccountHistory oddHistoryLedger (lit "A001") =
        .ok ((oddHistoryLedger.history (lit "A001")).map historyEntry) ∧
      (historyEntry { TxId := "tx1", Timestamp := 1, IsDelete := false,
                      Value := mistypedDoc }).Value.get .balance = .num (.finite 0) ∧
      (historyEntry { TxId := "tx1", Timestamp := 1, IsDelete := false,
                      Value := mistypedDoc }).Value.get .dealerId = .str (lit "X") :=
  have h := c7_history_tolerates_decode_failure oddHistoryLedger (lit "A001") rfl
    (fun _ => rfl)
  have hm := (h.2.2 { TxId := "tx1", Timestamp := 1, IsDelete := false, Value := mistypedDoc }
    (List.mem_cons_self _ _)).2.2.2.2 _ rfl
  ⟨h.1, (hm .balance).trans rfl, (hm .dealerId).trans rfl⟩

/-! ## C8 -/

/-- C8, as stated, fails: on `readOnlyLedger` the writes of `InitLedger`
fail, and `InitLedger` returns no error and leaves the ledger as it was; on
`closeFailsLedger` closing the history iterator fails, and
`GetAccountHistory` returns the history without an error. -/
theorem c8_counterexample :
    (readOnlyLedger.PutState sampleA001.DealerID (marshalOrNil sampleA001)).1 =
        some (.stub "write refused") ∧
      (readOnlyLedger.PutState sampleA002.DealerID (marshalOrNil sampleA002)).1 =
        some (.stub "write refused") ∧
      InitLedger readOnlyLedger = (none, readOnlyLedger) ∧
      closeFailsLedger.Close (lit "A001") = some (.stub "close failed") ∧
      GetAccountHistory closeFailsLedger (lit "A001") = .ok [] :=
  ⟨rfl, rfl, rfl, rfl, rfl⟩

/-- C8, amended: for every contract operation other than `InitLedger`
(`AccountExists`, `CreateAccount`, `QueryAccount`, `UpdateAccountBalance`,
`GetAccountHistory`), whenever a read of the world state, a write of the world
state or the encoding of the record fails during the operation, the operation
returns an error; no failure is swallowed other than an unparsable numeric
argument, the failure to decode one entry during the history traversal and the
failure to close the history iterator: the failure to decode the stored record
in `QueryAccount` and in `UpdateAccountBalance`, to open the history and to
read an item of it are returned. `InitLedger` returns no error, whatever its
encodings and writes do. -/
theorem c8_errors_are_returned (scan : GoString → Option Float64) (s : Stub)
    (dealerId msisdn mpin balance status transAmount transType remarks : GoString) :
    let account : Account :=
      { DealerID := dealerId, MSISDN := msisdn, MPIN := mpin,
        Balance := (scan balance).getD (.finite 0), Status := status,
        TransAmount := (scan transAmount).getD (.finite 0), TransType := transType,
        Remarks := remarks }
    let create := CreateAccount scan s dealerId msisdn mpin balance status transAmount
      transType remarks
    let update := UpdateAccountBalance scan s dealerId balance
    (∀ e, s.getStateErr dealerId = some e →
        AccountExists s dealerId = .error e ∧ create = (some e, s) ∧
        QueryAccount s dealerId = .error (.readFailed e) ∧ update = (some e, s)) ∧
      (∀ e, s.getStateErr dealerId = none → s.world dealerId = none →
        jsonMarshal account = .error e → create = (some e, s)) ∧
      (∀ e b, s.getStateErr dealerId = none → s.world dealerId = none →
        jsonMarshal account = .ok b → s.putStateErr dealerId = some e →
        create = (some e, s)) ∧
      (∀ e data old, s.getStateErr dealerId = none → s.world dealerId = some data →
        jsonUnmarshal data Account.zero = (old, none) →
        jsonMarshal { old with Balance := (scan balance).getD (.finite 0) } = .error e →
        update = (some e, s)) ∧
      (∀ e b data old, s.getStateErr dealerId = none → s.world dealerId = some data →
        jsonUnmarshal data Account.zero = (old, none) →
        jsonMarshal { old with Balance := (scan balance).getD (.finite 0) } = .ok b →
        s.putStateErr dealerId = some e → update = (some e, s)) ∧
      (∀ e, s.historyErr dealerId = some e → GetAccountHistory s dealerId = .error e) ∧
      ((∃ i, i < (s.history dealerId).length ∧ s.nextErr dealerId i ≠ none) →
        ∃ e, GetAccountHistory s dealerId = .error e) ∧
      (∀ e data left, s.getStateErr dealerId = none → s.world dealerId = some data →
        jsonUnmarshal data Account.zero = (left, some e) →
        QueryAccount s dealerId = .error e ∧ update = (some e, s)) ∧
      (∀ closeErr,
        GetAccountHistory { s with closeErr := closeErr } dealerId =
          GetAccountHistory s dealerId) ∧
      (InitLedger s).1 = none := by
  intro account create update
  refine ⟨?_, ?_, ?_, ?_, ?_, ?_, ?_, ?_, GetAccountHistory_closeErr s dealerId, rfl⟩
  · intro e hg
    simp [create, update, AccountExists, CreateAccount, QueryAccount, UpdateAccountBalance,
      Stub.GetState, hg]
  · intro e hg hw hm
    simp only [account] at hm
    simp [create, AccountExists, CreateAccount, Stub.GetState, hg, hw, hm]
  · intro e b hg hw hm hp
    simp only [account] at hm
    simp [create, AccountExists, CreateAccount, Stub.GetState, hg, hw, hm,
      PutState_err s dealerId b e hp]
  · intro e data old hg hw hu hm
    simp [update, UpdateAccountBalance, Stub.GetState, hg, hw, hu, hm]
  · intro e b data old hg hw hu hm hp
    simp [update, UpdateAccountBalance, Stub.GetState, hg, hw, hu, hm,
      PutState_err s dealerId b e hp]
  · intro e hh
    simp [GetAccountHistory, hh]
  · intro h
    cases hh : s.historyErr dealerId with
    | some e => exact ⟨e, by simp [GetAccountHistory, hh]⟩
    | none =>
      obtain ⟨i, hi, he⟩ := h
      obtain ⟨e, h2⟩ := historyLoop_fails s dealerId (s.history dealerId) 0 []
        ⟨i, hi, by simpa using he⟩
      exact ⟨e, by simp [GetAccountHistory, hh, h2]⟩
  · intro e data left hg hw hu
    simp [update, QueryAccount, UpdateAccountBalance, Stub.GetState, hg, hw, hu]

/-- C8, at two examples: on `readOnlyLedger` the write of `CreateAccount`
fails and its error is returned; on `mistypedLedger` the record stored under
`A001` fails to decode, and `QueryAccount` and `UpdateAccountBalance` return
the error of the decoder and leave the ledger as it was. -/
theorem c8_errors_are_returned_witness :
    CreateAccount scanTable readOnlyLedger (lit "A001") (lit "9998887701") (lit "1111")
        (lit "1000") (lit "active") (lit "500") (lit "credit") (lit "init") =
        (some (.stub "write refused"), readOnlyLedger) ∧
      QueryAccount mistypedLedger (lit "A001") = .error (.unmarshalType "balance") ∧
      UpdateAccountBalance scanTable mistypedLedger (lit "A001") (lit "1000") =
        (some (.unmarshalType "balance"), mistypedLedger) :=
  ⟨(c8_errors_are_returned scanTable readOnlyLedger (lit "A001") (lit "9998887701")
      (lit "1111") (lit "1000") (lit "active") (lit "500") (lit "credit")
      (lit "init")).2.2.1 (.stub "write refused") (marshalOrNil sampleA001) rfl rfl rfl rfl,
    (c8_errors_are_returned scanTable mistypedLedger (lit "A001") (lit "9998887701")
      (lit "1111") (lit "1000") (lit "active") (lit "500") (lit "credit")
      (lit "init")).2.2.2.2.2.2.2.1 (.unmarshalType "balance") mistypedDoc
      { Account.zero with DealerID := lit "X" } rfl rfl rfl⟩

/-! ## C10 -/

/-- C10: when the stub does not fail for the two seeded keys, `InitLedger`
returns no error whatever the world state held, afterwards `QueryAccount`
returns the fixed sample record for `A001` and for `A002`, and the value under
every other key is as before. -/
theorem c10_init_overwrites (s : Stub)
    (hg1 : s.getStateErr (lit "A001") = none) (hg2 : s.getStateErr (lit "A002") = none)
    (hp1 : s.putStateErr (lit "A001") = none) (hp2 : s.putStateErr (lit "A002") = none) :
    (InitLedger s).1 = none ∧
      QueryAccount (InitLedger s).2 (lit "A001") =
        .ok { DealerID := lit "A001", MSISDN := lit "9998887701", MPIN := lit "1111",
              Balance := .finite 1000, Status := lit "active", TransAmount := .finite 500,
              TransType := lit "credit", Remarks := lit "init" } ∧
      QueryAccount (InitLedger s).2 (lit "A002") =
        .ok { DealerID := lit "A002", MSISDN := lit "9998887702", MPIN := lit "2222",
              Balance := .finite 2000, Status := lit "active", TransAmount := .finite 1000,
              TransType := lit "credit", Remarks := lit "init" } ∧
      ∀ k, k ≠ lit "A001" → k ≠ lit "A002" → (InitLedger s).2.world k = s.world k := by
  have m1 : ∃ d, jsonMarshal sampleA001 = .ok (.json d) ∧ marshalOrNil sampleA001 = .json d :=
    ⟨_, rfl, rfl⟩
  have m2 : ∃ d, jsonMarshal sampleA002 = .ok (.json d) ∧ marshalOrNil sampleA002 = .json d :=
    ⟨_, rfl, rfl⟩
  obtain ⟨d1, hm1, hd1⟩ := m1
  obtain ⟨d2, hm2, hd2⟩ := m2
  have hne : lit "A001" ≠ lit "A002" := by decide
  have hi : InitLedger s =
      (none, ((s.PutState (lit "A001") (.json d1)).2.PutState (lit "A002") (.json d2)).2) := by
    rw [← hd1, ← hd2]; rfl
  have hs1 : (s.PutState (lit "A001") (.json d1)).2.putStateErr (lit "A002") = none := by
    rw [PutState_json s _ d1 hp1]; exact hp2
  have hu1 := jsonUnmarshal_jsonMarshal sampleA001 Account.zero _ hm1
  have hu2 := jsonUnmarshal_jsonMarshal sampleA002 Account.zero _ hm2
  have c1 : sampleA001.coerced = sampleA001 := by decide
  have c2 : sampleA002.coerced = sampleA002 := by decide
  rw [hi]
  refine ⟨rfl, ?_, ?_, ?_⟩
  · rw [PutState_json _ _ d2 hs1, PutState_json s _ d1 hp1]
    simp [QueryAccount, Stub.GetState, hg1, hne, hu1, c1]
    rfl
  · rw [PutState_json _ _ d2 hs1, PutState_json s _ d1 hp1]
    simp [QueryAccount, Stub.GetState, hg2, hu2, c2]
    rfl
  · intro k h1 h2
    rw [PutState_json _ _ d2 hs1, PutState_json s _ d1 hp1]
    simp [h1, h2]

/-- C10, at the example of the claim: after `InitLedger` and
`UpdateAccountBalance("A001", "1500")` a second `InitLedger` makes the balance
of `A001` 1000 again. -/
theorem c10_init_overwrites_witness :
    QueryAccount (UpdateAccountBalance scanTable (InitLedger freshLedger).2 (lit "A001")
        (lit "1500")).2 (lit "A001") = .ok { sampleA001 with Balance := .finite 1500 } ∧
      QueryAccount (InitLedger (UpdateAccountBalance scanTable (InitLedger freshLedger).2
        (lit "A001") (lit "1500")).2).2 (lit "A001") =
        .ok { DealerID := lit "A001", MSISDN := lit "9998887701", MPIN := lit "1111",
              Balance := .finite 1000, Status := lit "active", TransAmount := .finite 500,
              TransType := lit "credit", Remarks := lit "init" } :=
  ⟨rfl, (c10_init_overwrites (UpdateAccountBalance scanTable (InitLedger freshLedger).2
    (lit "A001") (lit "1500")).2 rfl rfl rfl rfl).2.1⟩

/-! ## C5 -/

/-- C5: after any sequence of transactions on an empty ledger,
`GetAccountHistory(dealerId)`, when the history reads do not fail, returns
exactly one entry for each transaction that wrote dealerId with success, in
the order of the transactions; each entry carries the TxId and Timestamp of
its transaction, is no delete, and its Value is the account record dealerId
held once that transaction was committed; the entries are those of the items
of the platform's history of the key, in its order. -/
theorem c5_history_of_writes (scan : GoString → Option Float64)
    (getStateErr putStateErr historyErr : GoString → Option Error)
    (nextErr : GoString → Nat → Option Error) (closeErr : GoString → Option Error)
    (txs : List Tx) (dealerId : GoString)
    (hh : historyErr dealerId = none) (hn : ∀ i, nextErr dealerId i = none) :
    let s0 := emptyLedger getStateErr putStateErr historyErr nextErr closeErr
    GetAccountHistory (runAll scan s0 txs) dealerId = .ok (commits scan s0 txs dealerId) ∧
      (commits scan s0 txs dealerId).length = writeCount scan s0 txs dealerId ∧
      commits scan s0 txs dealerId =
        ((runAll scan s0 txs).history dealerId).map historyEntry := by
  intro s0
  obtain ⟨h1, h2, h3⟩ := runAll_history scan dealerId txs s0
  have h4 : ((runAll scan s0 txs).history dealerId).map historyEntry =
      commits scan s0 txs dealerId := by
    rw [h3]; simp [s0, emptyLedger]
  refine ⟨?_, commits_length scan dealerId txs s0, h4.symm⟩
  rw [GetAccountHistory_ok _ dealerId (by rw [h1]; exact hh) (by rw [h2]; exact hn), h4]

/-- C5, at the example of the specification: `A001` is created with balance
1000 and updated to 1500; its history has two entries, with the balances 1000
and 1500 in this order. -/
theorem c5_history_of_writes_witness :
    GetAccountHistory (runAll scanTable freshLedger exampleTxs) (lit "A001") =
      .ok [{ TxId := "tx1", Timestamp := 1, IsDelete := false, Value := sampleA001 },
           { TxId := "tx2", Timestamp := 2, IsDelete := false,
             Value := { sampleA001 with Balance := .finite 1500 } }] :=
  (c5_history_of_writes scanTable (fun _ => none) (fun _ => none) (fun _ => none)
    (fun _ _ => none) (fun _ => none) exampleTxs (lit "A001") rfl (fun _ => rfl)).1.trans rfl

end Chaincode
